import Mathlib

/-!
Verification of `into/regex.py` (the `RegexDispatcher` pattern dispatcher).

The Python module keeps two dicts on each dispatcher instance:
  `funcs       : normalized-pattern-string -> handler`
  `priorities  : handler -> int`
Handlers are opaque function objects; dict keying is by object identity, so a
handler is modelled as an opaque identifier `FuncId := Nat` and its runtime
behaviour as an environment `FuncId -> String -> Except PyErr v` supplied to
`__call__`.  Python dicts are modelled as association lists in insertion
order with in-place update (`dictInsert`), which is CPython's observable
iteration behaviour.

The standard-library `re` module is an external collaborator; it is embedded
for the sublanguage of regular expressions this repository exercises:
literal characters, escapes (with `\d` and `\w` classes, ASCII semantics),
`.` (any char except newline), grouping `(...)`, alternation `|`, the
repetitions `*`, `+`, `?`, and the anchors `^` and `$` (where `$` also
matches just before a single trailing newline, as in Python without
MULTILINE).  Patterns outside this sublanguage (bracket character classes,
brace quantifiers, ...) are modelled as unsupported, i.e. unparseable.
`re.match` truthiness is `pyMatch` (a match starting at position 0),
`re.fullmatch` truthiness is `pyFullMatch`.
-/

namespace into

/-- Association-list key for a Python handler (function object identity). -/
abbrev FuncId := Nat

/-- Python exceptions that the dispatcher's control flow distinguishes:
`NotImplementedError` (caught by `__call__` to continue the fallback chain),
`TypeError` (unorderable sort keys), `re.error` (bad pattern at compile
time), and any other exception, carried opaquely. -/
inductive PyErr where
  | notImplementedError (msg : String)
  | typeError
  | reError (pat : String)
  | other (name msg : String)
deriving DecidableEq

/-- Test used by the `except NotImplementedError` clause of `__call__`. -/
def isNotImplementedError : PyErr → Bool
  | .notImplementedError _ => true
  | _ => false

/-- Abstract syntax of the supported regular-expression sublanguage. -/
inductive Regex where
  | eps
  | char (c : Char)
  | any
  | digit
  | word
  | start
  | eol
  | cat (r1 r2 : Regex)
  | alt (r1 r2 : Regex)
  | star (r : Regex)
  | plus (r : Regex)
  | opt (r : Regex)
  | group (r : Regex)
deriving DecidableEq

/-- Size of a regex term, used to budget matching fuel. -/
def reSize : Regex → Nat
  | .eps | .char _ | .any | .digit | .word | .start | .eol => 1
  | .cat r1 r2 | .alt r1 r2 => 1 + reSize r1 + reSize r2
  | .star r | .plus r | .opt r | .group r => 1 + reSize r

/-- Grammar level for the recursive-descent pattern parser. -/
inductive PMode where
  | palt
  | pcat
  | prep
  | patom

/-- Recursive-descent parser for the supported pattern sublanguage,
precedence levels: alternation, concatenation, repetition, atom.  The fuel
argument only forces termination; it is chosen large enough in
`parseRegex`. -/
def parseR : Nat → PMode → List Char → Option (Regex × List Char)
  | 0, _, _ => none
  | fuel+1, .palt, cs =>
    match parseR fuel .pcat cs with
    | none => none
    | some (r, '|' :: rest) =>
      match parseR fuel .palt rest with
      | none => none
      | some (r2, rest2) => some (.alt r r2, rest2)
    | some (r, rest) => some (r, rest)
  | fuel+1, .pcat, cs =>
    match cs with
    | [] => some (.eps, [])
    | c :: _ =>
      if c == '|' || c == ')' then some (.eps, cs)
      else
        match parseR fuel .prep cs with
        | none => none
        | some (r, rest) =>
          match parseR fuel .pcat rest with
          | none => none
          | some (r2, rest2) => some (.cat r r2, rest2)
  | fuel+1, .prep, cs =>
    match parseR fuel .patom cs with
    | none => none
    | some (r, '*' :: rest) => some (.star r, rest)
    | some (r, '+' :: rest) => some (.plus r, rest)
    | some (r, '?' :: rest) => some (.opt r, rest)
    | some (r, rest) => some (r, rest)
  | fuel+1, .patom, cs =>
    match cs with
    | [] => none
    | '(' :: rest =>
      match parseR fuel .palt rest with
      | none => none
      | some (r, ')' :: rest2) => some (.group r, rest2)
      | some _ => none
    | '\\' :: [] => none
    | '\\' :: c :: rest =>
      some ((if c == 'd' then Regex.digit else if c == 'w' then Regex.word
             else Regex.char c), rest)
    | '^' :: rest => some (.start, rest)
    | '$' :: rest => some (.eol, rest)
    | '.' :: rest => some (.any, rest)
    | c :: rest =>
      if c == ')' || c == '|' || c == '*' || c == '+' || c == '?' ||
         c == '[' || c == '{' then none
      else some (.char c, rest)

/-- Embedding of regular-expression compilation (`re.compile`): `none`
means the pattern is rejected (a `re.error` in Python); patterns outside
the supported sublanguage are modelled as rejected. -/
def parseRegex (s : String) : Option Regex :=
  match parseR (4 * s.data.length + 8) .palt s.data with
  | some (r, []) => some r
  | _ => none

/-- Python `\w` (ASCII semantics): letters, digits, underscore. -/
def isWordChar (c : Char) : Bool := c.isAlphanum || c == '_'

/-- Backtracking matcher in continuation-passing style: `mmatch fuel re
full i k` is `true` iff, within `fuel`, `re` matches some segment of
`full` starting at position `i` and ending at a position `j` with `k j`.
Star iterations are required to make progress, which preserves the set of
matchable strings and bounds the recursion.  `start` matches only at
position 0 (no MULTILINE); `eol` matches at the end of the string or just
before a single trailing newline, as in Python. -/
def mmatch : Nat → Regex → List Char → Nat → (Nat → Bool) → Bool
  | 0, _, _, _, _ => false
  | fuel+1, re, full, i, k =>
    match re with
    | .eps => k i
    | .char c =>
      match full[i]? with
      | some c2 => c2 == c && k (i+1)
      | none => false
    | .any =>
      match full[i]? with
      | some c2 => c2 != '\n' && k (i+1)
      | none => false
    | .digit =>
      match full[i]? with
      | some c2 => c2.isDigit && k (i+1)
      | none => false
    | .word =>
      match full[i]? with
      | some c2 => isWordChar c2 && k (i+1)
      | none => false
    | .start => i == 0 && k i
    | .eol =>
      (i == full.length || (i + 1 == full.length && full[i]? == some '\n')) && k i
    | .cat r1 r2 => mmatch fuel r1 full i (fun j => mmatch fuel r2 full j k)
    | .alt r1 r2 => mmatch fuel r1 full i k || mmatch fuel r2 full i k
    | .star r =>
      k i || mmatch fuel r full i (fun j => decide (i < j) && mmatch fuel (.star r) full j k)
    | .plus r => mmatch fuel r full i (fun j => mmatch fuel (.star r) full j k)
    | .opt r => k i || mmatch fuel r full i k
    | .group r => mmatch fuel r full i k

/-- Truthiness of Python `re.match(re, s)`: a match starting at position 0,
ending anywhere. -/
def pyMatch (re : Regex) (s : String) : Bool :=
  mmatch ((reSize re + 2) * (s.data.length + 2)) re s.data 0 (fun _ => true)

/-- Truthiness of Python `re.fullmatch(re, s)`: a match that consumes the
entire string. -/
def pyFullMatch (re : Regex) (s : String) : Bool :=
  mmatch ((reSize re + 2) * (s.data.length + 2)) re s.data 0
    (fun j => j == s.data.length)

/-- String-level `re.match` truthiness: compiles the pattern (raising
`re.error` on a bad pattern) and matches from position 0. -/
def reMatchStr (r s : String) : Except PyErr Bool :=
  match parseRegex r with
  | none => .error (.reError r)
  | some re => .ok (pyMatch re s)

/-- String-level `re.fullmatch` truthiness. -/
def reFullMatchStr (r s : String) : Except PyErr Bool :=
  match parseRegex r with
  | none => .error (.reError r)
  | some re => .ok (pyFullMatch re s)

/-- Python `str.lstrip` with a single strip character. -/
def lstripChar (c : Char) (l : List Char) : List Char :=
  l.dropWhile (· == c)

/-- Python `str.rstrip` with a single strip character. -/
def rstripChar (c : Char) (l : List Char) : List Char :=
  (l.reverse.dropWhile (· == c)).reverse

/-- Embedding of `normalize` from `into/regex.py`:
`return '^' + r.lstrip('^').rstrip('$') + '$'`. -/
def normalize (r : String) : String :=
  ⟨'^' :: (rstripChar '$' (lstripChar '^' r.data) ++ ['$'])⟩

/-- Python dict assignment `m[k] = v`: updates the first binding of `k` in
place, otherwise appends the binding (CPython insertion-order dicts). -/
def dictInsert {α β : Type} [DecidableEq α] (k : α) (v : β) :
    List (α × β) → List (α × β)
  | [] => [(k, v)]
  | (k2, v2) :: rest =>
    if k2 = k then (k, v) :: rest else (k2, v2) :: dictInsert k v rest

/-- Python dict lookup `m.get(k)` / `m[k]`: first binding of `k`. -/
def dictGet {α β : Type} [DecidableEq α] (k : α) : List (α × β) → Option β
  | [] => none
  | (k2, v) :: rest => if k2 = k then some v else dictGet k rest

/-- State of a `RegexDispatcher` instance: the cosmetic name and the two
dicts `funcs` (normalized pattern text to handler) and `priorities`
(handler to integer priority). -/
structure RegexDispatcher where
  name : String
  funcs : List (String × FuncId)
  priorities : List (FuncId × Int)
deriving DecidableEq

/-- Embedding of `RegexDispatcher.__init__`: both dicts start empty. -/
def RegexDispatcher.init (name : String) : RegexDispatcher :=
  ⟨name, [], []⟩

/-- Embedding of `RegexDispatcher.add` (Python default `priority=10` is
passed explicitly by callers here):
`self.funcs[normalize(regex)] = func; self.priorities[func] = priority`.
The method performs no validation of `regex` and returns `None`; it is
modelled as a pure state transformer. -/
def RegexDispatcher.add (d : RegexDispatcher) (regex : String)
    (func : FuncId) (priority : Int) : RegexDispatcher :=
  { d with funcs := dictInsert (normalize regex) func d.funcs,
           priorities := dictInsert func priority d.priorities }

/-- The list comprehension in `dispatch`:
`[func for r, func in self.funcs.items() if re.match(r, s)]`.
Compilation of a stored pattern happens here, at dispatch time; an invalid
stored pattern raises `re.error` at the first such entry in iteration
order. -/
def matchFilter (s : String) : List (String × FuncId) → Except PyErr (List FuncId)
  | [] => .ok []
  | (r, f) :: rest =>
    match parseRegex r with
    | none => .error (.reError r)
    | some re =>
      match matchFilter s rest with
      | .error e => .error e
      | .ok tl => .ok (if pyMatch re s then f :: tl else tl)

/-- Key extraction for `sorted(funcs, key=self.priorities.get, ...)`:
pairs each handler with its priority; `none` records that some handler has
no priority entry (its sort key would be Python `None`). -/
def keyFuncs (prios : List (FuncId × Int)) : List FuncId → Option (List (FuncId × Int))
  | [] => some []
  | f :: fs =>
    match dictGet f prios, keyFuncs prios fs with
    | some p, some tl => some ((f, p) :: tl)
    | _, _ => none

/-- Ordering used by `sorted(..., reverse=True)` on priority keys:
`a` may precede `b` iff `b`'s priority is not larger. -/
def prioGE (a b : FuncId × Int) : Prop := b.2 ≤ a.2

instance : DecidableRel prioGE := fun a b => inferInstanceAs (Decidable (b.2 ≤ a.2))

instance : IsTotal (FuncId × Int) prioGE := ⟨fun a b => le_total b.2 a.2⟩

instance : IsTrans (FuncId × Int) prioGE := ⟨fun _ _ _ h1 h2 => le_trans h2 h1⟩

/-- Embedding of `RegexDispatcher.dispatch_iter`:
`sorted(funcs, key=self.priorities.get, reverse=True)`.  Python's sort is
stable; sorting by key descending with stability is realized by insertion
sort with the total preorder `prioGE`.  A handler missing from
`priorities` gets sort key `None`: with at most one element no comparison
is made and the list is returned as is, otherwise comparing `None` against
a key raises `TypeError`. -/
def RegexDispatcher.dispatch_iter (d : RegexDispatcher) (funcs : List FuncId) :
    Except PyErr (List FuncId) :=
  match keyFuncs d.priorities funcs with
  | some keyed => .ok ((List.insertionSort prioGE keyed).map Prod.fst)
  | none => if funcs.length ≤ 1 then .ok funcs else .error .typeError

/-- Embedding of `RegexDispatcher.dispatch`: filter the stored patterns by
`re.match` against `s`, then hand the matching handlers to
`dispatch_iter`. -/
def RegexDispatcher.dispatch (d : RegexDispatcher) (s : String) :
    Except PyErr (List FuncId) :=
  match matchFilter s d.funcs with
  | .error e => .error e
  | .ok funcs => d.dispatch_iter funcs

/-- The loop body of `RegexDispatcher.__call__`: try each handler in order,
catching `NotImplementedError` to continue, propagating any other
exception; when the candidates are exhausted raise
`NotImplementedError("unable to match any regexes for dispatching")`. -/
def callLoop {v : Type} (behav : FuncId → String → Except PyErr v)
    (s : String) : List FuncId → Except PyErr v
  | [] => .error (.notImplementedError "unable to match any regexes for dispatching")
  | f :: fs =>
    match behav f s with
    | .ok r => .ok r
    | .error e => if isNotImplementedError e then callLoop behav s fs else .error e

/-- Embedding of `RegexDispatcher.__call__`: dispatch, then run the
candidate handlers in order.  Extra positional and keyword arguments are
forwarded verbatim to every handler, so they are absorbed into the handler
environment `behav`. -/
def RegexDispatcher.call {v : Type} (d : RegexDispatcher)
    (behav : FuncId → String → Except PyErr v) (s : String) : Except PyErr v :=
  match d.dispatch s with
  | .error e => .error e
  | .ok funcs => callLoop behav s funcs

/-- Dispatcher states reachable through the public interface: a fresh
instance followed by any sequence of registrations. -/
inductive Reachable : RegexDispatcher → Prop
  | init (name : String) : Reachable (RegexDispatcher.init name)
  | add (d : RegexDispatcher) (r : String) (f : FuncId) (p : Int) :
      Reachable d → Reachable (d.add r f p)

/-- Priority read off a dispatcher state, with an irrelevant default for
the absent case (used only in statements guarded so that the entry
exists or the list is too short to compare). -/
def prioOf (d : RegexDispatcher) (f : FuncId) : Int :=
  (dictGet f d.priorities).getD 0

/-- Dispatcher with handler 1 (pattern `\d+`) at priority 5 and handler 2
(pattern `\d\d`) at priority 10; both patterns match the input `42`. -/
def dAB : RegexDispatcher :=
  ((RegexDispatcher.init "f").add "\\d+" 1 5).add "\\d\\d" 2 10

/-- Handler environment where handler 2 succeeds with 200 and any other
handler succeeds with 100. -/
def behavBok : FuncId → String → Except PyErr Nat :=
  fun f _ => if f == 2 then .ok 200 else .ok 100

/-- Handler environment where handler 2 declines (raises
`NotImplementedError`) and any other handler succeeds with 100. -/
def behavBdecline : FuncId → String → Except PyErr Nat :=
  fun f _ => if f == 2 then .error (.notImplementedError "cannot handle") else .ok 100

/-- Handler environment where handler 2 raises a fatal `ValueError` and
any other handler succeeds with 100. -/
def behavBfatal : FuncId → String → Except PyErr Nat :=
  fun f _ => if f == 2 then .error (.other "ValueError" "boom") else .ok 100

/-- Handler environment where every handler succeeds with 7. -/
def behavOk7 : FuncId → String → Except PyErr Nat :=
  fun _ _ => .ok 7

/-- Handler environment where every handler declines. -/
def behavDeclineAll : FuncId → String → Except PyErr Nat :=
  fun _ _ => .error (.notImplementedError "cannot handle")

theorem dictGet_dictInsert_self {α β : Type} [DecidableEq α] (k : α) (v : β)
    (m : List (α × β)) : dictGet k (dictInsert k v m) = some v := by
  induction m with
  | nil => simp [dictInsert, dictGet]
  | cons hd tl ih =>
    obtain ⟨k2, v2⟩ := hd
    by_cases h : k2 = k
    · simp [dictInsert, dictGet, h]
    · simp [dictInsert, dictGet, h, ih]

theorem dictGet_dictInsert_ne {α β : Type} [DecidableEq α] (k k2 : α) (v : β)
    (m : List (α × β)) (h : k2 ≠ k) :
    dictGet k (dictInsert k2 v m) = dictGet k m := by
  induction m with
  | nil => simp [dictInsert, dictGet, h]
  | cons hd tl ih =>
    obtain ⟨k3, v3⟩ := hd
    by_cases h3 : k3 = k2
    · subst h3; simp [dictInsert, dictGet, h]
    · simp [dictInsert, dictGet, h3, ih]

theorem dictInsert_idem {α β : Type} [DecidableEq α] (k : α) (v : β)
    (m : List (α × β)) : dictInsert k v (dictInsert k v m) = dictInsert k v m := by
  induction m with
  | nil => simp [dictInsert]
  | cons hd tl ih =>
    obtain ⟨k2, v2⟩ := hd
    by_cases h : k2 = k
    · simp [dictInsert, h]
    · simp [dictInsert, h, ih]

theorem mem_dictInsert {α β : Type} [DecidableEq α] (x : α × β) (k : α) (v : β)
    (m : List (α × β)) (hx : x ∈ dictInsert k v m) : x = (k, v) ∨ x ∈ m := by
  induction m with
  | nil => simp [dictInsert] at hx; exact Or.inl hx
  | cons hd tl ih =>
    obtain ⟨k2, v2⟩ := hd
    by_cases h : k2 = k
    · rw [dictInsert, if_pos h] at hx
      rcases List.mem_cons.mp hx with h1 | h1
      · exact Or.inl h1
      · exact Or.inr (List.mem_cons_of_mem _ h1)
    · rw [dictInsert, if_neg h] at hx
      rcases List.mem_cons.mp hx with h1 | h1
      · exact Or.inr (h1 ▸ List.mem_cons_self _ _)
      · rcases ih h1 with h2 | h2
        · exact Or.inl h2
        · exact Or.inr (List.mem_cons_of_mem _ h2)

theorem fst_mem_dictInsert {α β : Type} [DecidableEq α] (a k : α) (v : β)
    (m : List (α × β)) (h : a ∈ (dictInsert k v m).map Prod.fst) :
    a = k ∨ a ∈ m.map Prod.fst := by
  rcases List.mem_map.mp h with ⟨x, hx, hfx⟩
  rcases mem_dictInsert x k v m hx with h1 | h1
  · left; rw [← hfx, h1]
  · right; exact hfx ▸ List.mem_map_of_mem Prod.fst h1

theorem dictInsert_nodupKeys {α β : Type} [DecidableEq α] (k : α) (v : β)
    (m : List (α × β)) (h : (m.map Prod.fst).Nodup) :
    ((dictInsert k v m).map Prod.fst).Nodup := by
  induction m with
  | nil => simp [dictInsert]
  | cons hd tl ih =>
    obtain ⟨k2, v2⟩ := hd
    rw [List.map_cons, List.nodup_cons] at h
    by_cases hk : k2 = k
    · subst hk
      rw [dictInsert, if_pos rfl, List.map_cons, List.nodup_cons]
      exact ⟨h.1, h.2⟩
    · rw [dictInsert, if_neg hk, List.map_cons, List.nodup_cons]
      refine ⟨?_, ih h.2⟩
      intro hmem
      rcases fst_mem_dictInsert k2 k v tl hmem with h1 | h1
      · exact hk h1
      · exact h.1 h1

theorem dictGet_of_mem_nodup {α β : Type} [DecidableEq α] (k : α) (v : β)
    (m : List (α × β)) (hnd : (m.map Prod.fst).Nodup) (hm : (k, v) ∈ m) :
    dictGet k m = some v := by
  induction m with
  | nil => cases hm
  | cons hd tl ih =>
    obtain ⟨k2, v2⟩ := hd
    rw [List.map_cons, List.nodup_cons] at hnd
    rcases List.mem_cons.mp hm with heq | htl
    · have hk : k2 = k := by
        have := congrArg Prod.fst heq; exact this.symm
      have hv : v2 = v := by
        have := congrArg Prod.snd heq; exact this.symm
      rw [dictGet, if_pos hk, hv]
    · have hk2 : k2 ≠ k := by
        intro he
        subst he
        exact hnd.1 (List.mem_map.mpr ⟨(k2, v), htl, rfl⟩)
      rw [dictGet, if_neg hk2]
      exact ih hnd.2 htl

theorem matchFilter_error_reError (s : String) (fs : List (String × FuncId))
    (e : PyErr) (h : matchFilter s fs = .error e) : ∃ p, e = PyErr.reError p := by
  induction fs with
  | nil => simp [matchFilter] at h
  | cons hd tl ih =>
    obtain ⟨r, f⟩ := hd
    rw [matchFilter] at h
    cases hp : parseRegex r with
    | none =>
      rw [hp] at h
      exact ⟨r, (Except.error.inj h).symm⟩
    | some re =>
      rw [hp] at h
      cases hm : matchFilter s tl with
      | error e2 =>
        rw [hm] at h
        have he2 : e2 = e := Except.error.inj h
        exact ih (he2 ▸ hm)
      | ok tl2 => rw [hm] at h; cases h

theorem matchFilter_mem (s : String) (fs : List (String × FuncId))
    (fl : List FuncId) (h : matchFilter s fs = .ok fl) (f : FuncId) :
    f ∈ fl ↔ ∃ r re, (r, f) ∈ fs ∧ parseRegex r = some re ∧ pyMatch re s = true := by
  induction fs generalizing fl with
  | nil =>
    rw [matchFilter] at h
    have : fl = [] := (Except.ok.inj h).symm
    subst this
    simp
  | cons hd tl ih =>
    obtain ⟨r0, f0⟩ := hd
    rw [matchFilter] at h
    cases hp : parseRegex r0 with
    | none => rw [hp] at h; cases h
    | some re0 =>
      rw [hp] at h
      cases hm : matchFilter s tl with
      | error e => rw [hm] at h; cases h
      | ok tl2 =>
        rw [hm] at h
        have hfl : fl = if pyMatch re0 s then f0 :: tl2 else tl2 :=
          (Except.ok.inj h).symm
        by_cases hmt : pyMatch re0 s
        · rw [if_pos hmt] at hfl
          rw [hfl]
          constructor
          · intro hin
            rcases List.mem_cons.mp hin with h1 | h1
            · exact ⟨r0, re0, h1 ▸ List.mem_cons_self _ _, hp, hmt⟩
            · obtain ⟨r, re, hr, hpr, hpm⟩ := (ih tl2 hm).mp h1
              exact ⟨r, re, List.mem_cons_of_mem _ hr, hpr, hpm⟩
          · rintro ⟨r, re, hr, hpr, hpm⟩
            rcases List.mem_cons.mp hr with h1 | h1
            · have : f = f0 := congrArg Prod.snd h1
              exact this ▸ List.mem_cons_self _ _
            · exact List.mem_cons_of_mem _ ((ih tl2 hm).mpr ⟨r, re, h1, hpr, hpm⟩)
        · rw [if_neg hmt] at hfl
          rw [hfl]
          constructor
          · intro hin
            obtain ⟨r, re, hr, hpr, hpm⟩ := (ih tl2 hm).mp hin
            exact ⟨r, re, List.mem_cons_of_mem _ hr, hpr, hpm⟩
          · rintro ⟨r, re, hr, hpr, hpm⟩
            rcases List.mem_cons.mp hr with h1 | h1
            · exfalso
              have hr0 : r = r0 := congrArg Prod.fst h1
              rw [hr0, hp] at hpr
              have : re = re0 := (Option.some.inj hpr).symm
              exact hmt (this ▸ hpm)
            · exact (ih tl2 hm).mpr ⟨r, re, h1, hpr, hpm⟩

theorem keyFuncs_fst (prios : List (FuncId × Int)) (fs : List FuncId)
    (keyed : List (FuncId × Int)) (h : keyFuncs prios fs = some keyed) :
    keyed.map Prod.fst = fs := by
  induction fs generalizing keyed with
  | nil =>
    rw [keyFuncs] at h
    have : keyed = [] := (Option.some.inj h).symm
    simp [this]
  | cons f fs ih =>
    rw [keyFuncs] at h
    cases hg : dictGet f prios with
    | none => rw [hg] at h; cases h
    | some p =>
      rw [hg] at h
      cases hk : keyFuncs prios fs with
      | none => rw [hk] at h; cases h
      | some tl =>
        rw [hk] at h
        have : keyed = (f, p) :: tl := (Option.some.inj h).symm
        subst this
        simp [ih tl hk]

theorem keyFuncs_get (prios : List (FuncId × Int)) (fs : List FuncId)
    (keyed : List (FuncId × Int)) (h : keyFuncs prios fs = some keyed) :
    ∀ x ∈ keyed, dictGet x.1 prios = some x.2 := by
  induction fs generalizing keyed with
  | nil =>
    rw [keyFuncs] at h
    have : keyed = [] := (Option.some.inj h).symm
    subst this
    intro x hx; cases hx
  | cons f fs ih =>
    rw [keyFuncs] at h
    cases hg : dictGet f prios with
    | none => rw [hg] at h; cases h
    | some p =>
      rw [hg] at h
      cases hk : keyFuncs prios fs with
      | none => rw [hk] at h; cases h
      | some tl =>
        rw [hk] at h
        have : keyed = (f, p) :: tl := (Option.some.inj h).symm
        subst this
        intro x hx
        rcases List.mem_cons.mp hx with h1 | h1
        · subst h1; exact hg
        · exact ih tl hk x h1

theorem keyFuncs_total (prios : List (FuncId × Int)) (fs : List FuncId)
    (h : ∀ f ∈ fs, (dictGet f prios).isSome = true) :
    (keyFuncs prios fs).isSome = true := by
  induction fs with
  | nil => rw [keyFuncs]; rfl
  | cons f fs ih =>
    rw [keyFuncs]
    have h1 := h f (List.mem_cons_self f fs)
    cases hg : dictGet f prios with
    | none => rw [hg] at h1; cases h1
    | some p =>
      have h2 := ih (fun g hg2 => h g (List.mem_cons_of_mem f hg2))
      cases hk : keyFuncs prios fs with
      | none => rw [hk] at h2; cases h2
      | some tl => rfl

theorem dispatch_iter_ok (d : RegexDispatcher) (fs l : List FuncId)
    (h : d.dispatch_iter fs = .ok l) :
    l.Perm fs ∧ l.Pairwise (fun a b => prioOf d b ≤ prioOf d a) := by
  unfold RegexDispatcher.dispatch_iter at h
  cases hk : keyFuncs d.priorities fs with
  | some keyed =>
    rw [hk] at h
    have hl : l = (List.insertionSort prioGE keyed).map Prod.fst :=
      (Except.ok.inj h).symm
    subst hl
    constructor
    · have h1 : (List.insertionSort prioGE keyed).Perm keyed :=
        List.perm_insertionSort _ _
      have h2 := h1.map Prod.fst
      rwa [keyFuncs_fst _ _ _ hk] at h2
    · rw [List.pairwise_map]
      have hs : List.Pairwise prioGE (List.insertionSort prioGE keyed) :=
        List.sorted_insertionSort prioGE keyed
      refine hs.imp_of_mem ?_
      intro a b ha hb hab
      have ha2 : a ∈ keyed := (List.perm_insertionSort prioGE keyed).subset ha
      have hb2 : b ∈ keyed := (List.perm_insertionSort prioGE keyed).subset hb
      have hga := keyFuncs_get _ _ _ hk a ha2
      have hgb := keyFuncs_get _ _ _ hk b hb2
      show prioOf d b.1 ≤ prioOf d a.1
      rw [prioOf, prioOf, hga, hgb]
      exact hab
  | none =>
    rw [hk] at h
    by_cases hlen : fs.length ≤ 1
    · rw [if_pos hlen] at h
      have hl : l = fs := (Except.ok.inj h).symm
      subst hl
      refine ⟨List.Perm.refl _, ?_⟩
      match l, hlen with
      | [], _ => exact List.Pairwise.nil
      | [f], _ => simp
    · rw [if_neg hlen] at h; cases h

theorem dispatch_ok (d : RegexDispatcher) (s : String) (l : List FuncId)
    (h : d.dispatch s = .ok l) :
    ∃ fl, matchFilter s d.funcs = .ok fl ∧ l.Perm fl ∧
      l.Pairwise (fun a b => prioOf d b ≤ prioOf d a) := by
  unfold RegexDispatcher.dispatch at h
  cases hm : matchFilter s d.funcs with
  | error e => rw [hm] at h; cases h
  | ok fl =>
    rw [hm] at h
    exact ⟨fl, rfl, dispatch_iter_ok d fl l h⟩

theorem callLoop_all_unhandled {v : Type} (behav : FuncId → String → Except PyErr v)
    (s : String) (fs : List FuncId)
    (h : ∀ f ∈ fs, ∃ m, behav f s = .error (.notImplementedError m)) :
    callLoop behav s fs =
      .error (.notImplementedError "unable to match any regexes for dispatching") := by
  induction fs with
  | nil => rfl
  | cons f fs ih =>
    obtain ⟨m, hm⟩ := h f (List.mem_cons_self f fs)
    rw [callLoop, hm]
    have hnie : isNotImplementedError (PyErr.notImplementedError m) = true := rfl
    simp only [hnie, if_true]
    exact ih (fun g hg => h g (List.mem_cons_of_mem f hg))

theorem callLoop_fatal {v : Type} (behav : FuncId → String → Except PyErr v)
    (s : String) (pre post : List FuncId) (f : FuncId) (e : PyErr)
    (hpre : ∀ g ∈ pre, ∃ m, behav g s = .error (.notImplementedError m))
    (hf : behav f s = .error e) (he : isNotImplementedError e = false) :
    callLoop behav s (pre ++ f :: post) = .error e := by
  induction pre with
  | nil =>
    rw [List.nil_append, callLoop, hf]
    simp only [he]
    rfl
  | cons g gs ih =>
    obtain ⟨m, hm⟩ := hpre g (List.mem_cons_self g gs)
    rw [List.cons_append, callLoop, hm]
    have hnie : isNotImplementedError (PyErr.notImplementedError m) = true := rfl
    simp only [hnie, if_true]
    exact ih (fun g2 hg2 => hpre g2 (List.mem_cons_of_mem g hg2))

theorem reachable_inv (d : RegexDispatcher) (h : Reachable d) :
    (∀ r f, (r, f) ∈ d.funcs → (dictGet f d.priorities).isSome = true) ∧
    (d.funcs.map Prod.fst).Nodup := by
  induction h with
  | init name => exact ⟨fun r f hm => absurd hm (List.not_mem_nil _), List.nodup_nil⟩
  | add d r f p hd ih =>
    obtain ⟨ih1, ih2⟩ := ih
    constructor
    · intro r2 f2 hm
      rcases mem_dictInsert _ _ _ _ hm with heq | hmem
      · have hf2 : f2 = f := congrArg Prod.snd heq
        rw [hf2]
        rw [show (RegexDispatcher.add d r f p).priorities = dictInsert f p d.priorities from rfl]
        rw [dictGet_dictInsert_self]
        rfl
      · by_cases hff : f = f2
        · rw [show (RegexDispatcher.add d r f p).priorities = dictInsert f p d.priorities from rfl]
          rw [hff, dictGet_dictInsert_self]
          rfl
        · rw [show (RegexDispatcher.add d r f p).priorities = dictInsert f p d.priorities from rfl]
          rw [dictGet_dictInsert_ne _ _ _ _ hff]
          exact ih1 r2 f2 hmem
    · exact dictInsert_nodupKeys _ _ _ ih2

theorem dispatch_no_typeError (d : RegexDispatcher)
    (hinv : ∀ r f, (r, f) ∈ d.funcs → (dictGet f d.priorities).isSome = true)
    (s : String) : d.dispatch s ≠ .error .typeError := by
  intro h
  unfold RegexDispatcher.dispatch at h
  cases hm : matchFilter s d.funcs with
  | error e =>
    rw [hm] at h
    obtain ⟨p, hp⟩ := matchFilter_error_reError s d.funcs e hm
    have : e = .typeError := Except.error.inj h
    rw [hp] at this
    cases this
  | ok fl =>
    rw [hm] at h
    have h2 : d.dispatch_iter fl = .error .typeError := h
    have htot : (keyFuncs d.priorities fl).isSome = true := by
      refine keyFuncs_total _ _ ?_
      intro f hf
      obtain ⟨r, re, hr, _, _⟩ := (matchFilter_mem s d.funcs fl hm f).mp hf
      exact hinv r f hr
    unfold RegexDispatcher.dispatch_iter at h2
    cases hk : keyFuncs d.priorities fl with
    | none => rw [hk] at htot; cases htot
    | some keyed =>
      rw [hk] at h2
      exact Except.noConfusion h2

theorem dropWhile_append_last (q : Char → Bool) (xs : List Char) (c : Char)
    (hc : q c = false) :
    List.dropWhile q (xs ++ [c]) = List.dropWhile q xs ++ [c] := by
  induction xs with
  | nil => simp [List.dropWhile, hc]
  | cons x xs ih =>
    by_cases h : q x
    · simp [List.dropWhile_cons, h, ih]
    · simp [List.dropWhile_cons, h]

theorem rstripChar_append_last (x : List Char) :
    rstripChar '$' (x ++ ['$']) = rstripChar '$' x := by
  unfold rstripChar
  rw [List.reverse_append]
  simp [List.dropWhile_cons]

/-- Pre-anchoring a pattern is erased by `normalize`: wrapping any core
text `p` with `^...$` yields the same normalized pattern as `p` itself. -/
theorem normalize_anchor (p : String) : normalize ("^" ++ p ++ "$") = normalize p := by
  have hdata : ("^" ++ p ++ "$").data = '^' :: (p.data ++ ['$']) := by
    simp [String.data_append]
  refine congrArg String.mk ?_
  rw [hdata]
  have h1 : lstripChar '^' ('^' :: (p.data ++ ['$'])) = lstripChar '^' (p.data ++ ['$']) := by
    simp [lstripChar, List.dropWhile_cons]
  have h2 : lstripChar '^' (p.data ++ ['$']) = lstripChar '^' p.data ++ ['$'] :=
    dropWhile_append_last _ _ _ rfl
  rw [h1, h2, rstripChar_append_last]

/-- C1 (code bug evaluation): pattern `a|b` does not match the whole input
`ab` — it matches only the proper substrings `a` and `b` — yet after
registration the stored pattern is `^a|b$`, which `re.match` satisfies on
`ab` through its `^a` alternative, so the handler is produced as the sole
candidate and is invoked.  This contradicts the anchoring property, which
requires a handler whose pattern matches only a proper substring never to
be dispatched. -/
theorem c1_anchoring_violation :
    reFullMatchStr "a|b" "ab" = .ok false ∧
    reFullMatchStr "a|b" "a" = .ok true ∧
    reFullMatchStr "a|b" "b" = .ok true ∧
    normalize "a|b" = "^a|b$" ∧
    reMatchStr "^a|b$" "ab" = .ok true ∧
    ((RegexDispatcher.init "f").add "a|b" 1 10).dispatch "ab" = .ok [1] ∧
    ((RegexDispatcher.init "f").add "a|b" 1 10).call behavOk7 "ab" = .ok 7 :=
  ⟨rfl, rfl, rfl, rfl, rfl, rfl, rfl⟩

/-- C2: for every dispatcher state and input, a successful `dispatch`
returns exactly the handlers whose stored (anchored) patterns match the
input — a permutation of the filtered list, sorted by priority descending
— and in the concrete scenario with handler 1 at priority 5 and handler 2
at priority 10 both matching `42`, handler 2 is first: it alone determines
the result when it succeeds, and handler 1 is invoked when handler 2
raises `NotImplementedError`. -/
theorem c2_priority_ordering :
    (∀ (d : RegexDispatcher) (s : String) (l : List FuncId),
      d.dispatch s = .ok l →
      ∃ fl, matchFilter s d.funcs = .ok fl ∧ l.Perm fl ∧
        l.Pairwise (fun a b => prioOf d b ≤ prioOf d a)) ∧
    dAB.dispatch "42" = .ok [2, 1] ∧
    dAB.call behavBok "42" = .ok 200 ∧
    dAB.call behavBdecline "42" = .ok 100 :=
  ⟨dispatch_ok, rfl, rfl, rfl⟩

/-- C2 witness: the universally quantified part instantiated at the
concrete two-handler dispatcher and input `42`. -/
theorem c2_priority_ordering_witness :
    ∃ fl, matchFilter "42" dAB.funcs = .ok fl ∧ ([2, 1] : List FuncId).Perm fl ∧
      ([2, 1] : List FuncId).Pairwise (fun a b => prioOf dAB b ≤ prioOf dAB a) :=
  c2_priority_ordering.1 dAB "42" [2, 1] rfl

/-- C3 counterexample: when no handler can route the input, `__call__`
raises `NotImplementedError` with the fixed message
`unable to match any regexes for dispatching`; the error value is
identical for the distinct inputs `x` and `y`, so it does not carry or
identify the input that failed to route. -/
theorem c3_nomatch_counterexample :
    (RegexDispatcher.init "f").call behavOk7 "x" =
      .error (.notImplementedError "unable to match any regexes for dispatching") ∧
    (RegexDispatcher.init "f").call behavOk7 "y" =
      .error (.notImplementedError "unable to match any regexes for dispatching") ∧
    ("x" : String) ≠ "y" :=
  ⟨rfl, rfl, by decide⟩

/-- C3 amended: if the candidate list is empty or every candidate raises
`NotImplementedError`, `__call__` fails with `NotImplementedError`
carrying the fixed message `unable to match any regexes for dispatching`,
which does not mention the input. -/
theorem c3_nomatch_fixed_message {v : Type} (behav : FuncId → String → Except PyErr v)
    (d : RegexDispatcher) (s : String) (l : List FuncId)
    (hd : d.dispatch s = .ok l)
    (hall : ∀ f ∈ l, ∃ m, behav f s = .error (.notImplementedError m)) :
    d.call behav s =
      .error (.notImplementedError "unable to match any regexes for dispatching") := by
  unfold RegexDispatcher.call
  rw [hd]
  exact callLoop_all_unhandled behav s l hall

/-- C3 witness: both handlers of the concrete dispatcher decline on `42`,
and the exhaustion failure is the fixed-message error. -/
theorem c3_nomatch_fixed_message_witness :
    dAB.call behavDeclineAll "42" =
      .error (.notImplementedError "unable to match any regexes for dispatching") :=
  c3_nomatch_fixed_message behavDeclineAll dAB "42" [2, 1] rfl
    (fun _ _ => ⟨"cannot handle", rfl⟩)

/-- C4 counterexample: `(` is not a syntactically valid regular expression
(neither is its normalized form `^($`), yet `add` completes without any
error, storing the pattern and the priority; the failure only appears
later, at dispatch time, as a regex compile error. -/
theorem c4_failfast_counterexample :
    parseRegex "(" = none ∧
    parseRegex (normalize "(") = none ∧
    ((RegexDispatcher.init "f").add "(" 1 10).funcs = [("^($", 1)] ∧
    ((RegexDispatcher.init "f").add "(" 1 10).priorities = [(1, 10)] ∧
    ((RegexDispatcher.init "f").add "(" 1 10).dispatch "x" = .error (.reError "^($") :=
  ⟨rfl, rfl, rfl, rfl, rfl⟩

/-- C4 amended: registration performs no validation and always succeeds —
the handler is stored under the normalized pattern — and when the
normalized pattern fails to compile the error surfaces only at dispatch
time, as a regex compile error naming the stored pattern. -/
theorem c4_deferred_validation (nm r : String) (f : FuncId) (p : Int) (s : String)
    (h : parseRegex (normalize r) = none) :
    dictGet (normalize r) ((RegexDispatcher.init nm).add r f p).funcs = some f ∧
    ((RegexDispatcher.init nm).add r f p).dispatch s = .error (.reError (normalize r)) := by
  constructor
  · exact dictGet_dictInsert_self _ _ _
  · show RegexDispatcher.dispatch ⟨nm, [(normalize r, f)], [(f, p)]⟩ s = _
    unfold RegexDispatcher.dispatch
    rw [matchFilter, h]

/-- C4 witness: the amended statement instantiated at the invalid pattern
`(`. -/
theorem c4_deferred_validation_witness :
    dictGet (normalize "(") ((RegexDispatcher.init "f").add "(" 1 10).funcs = some 1 ∧
    ((RegexDispatcher.init "f").add "(" 1 10).dispatch "x" =
      .error (.reError (normalize "(")) :=
  c4_deferred_validation "f" "(" 1 10 "x" rfl

/-- C5: if dispatch produces the candidates `pre ++ f :: post`, every
handler of `pre` declines, and `f` raises a failure that is not
`NotImplementedError`, then `__call__` propagates exactly that failure;
the result does not depend on `post`, i.e. no later candidate is
invoked. -/
theorem c5_fatal_passthrough {v : Type} (behav : FuncId → String → Except PyErr v)
    (d : RegexDispatcher) (s : String) (pre post : List FuncId) (f : FuncId) (e : PyErr)
    (hd : d.dispatch s = .ok (pre ++ f :: post))
    (hpre : ∀ g ∈ pre, ∃ m, behav g s = .error (.notImplementedError m))
    (hf : behav f s = .error e)
    (he : isNotImplementedError e = false) :
    d.call behav s = .error e := by
  unfold RegexDispatcher.call
  rw [hd]
  exact callLoop_fatal behav s pre post f e hpre hf he

/-- C5 witness: handler 2 (the first candidate on `42`) raises a
`ValueError`, which `__call__` propagates unchanged; handler 1 is never
consulted. -/
theorem c5_fatal_passthrough_witness :
    dAB.call behavBfatal "42" = .error (.other "ValueError" "boom") :=
  c5_fatal_passthrough behavBfatal dAB "42" [] [1] 2 (.other "ValueError" "boom")
    rfl (fun g hg => absurd hg (List.not_mem_nil g)) rfl rfl

/-- C6: dispatch is deterministic — two successful dispatches of the same
input against the same dispatcher state return equal candidate sequences
(equal length and equal handler at every position). -/
theorem c6_dispatch_deterministic (d : RegexDispatcher) (s : String)
    (l1 l2 : List FuncId) (h1 : d.dispatch s = .ok l1) (h2 : d.dispatch s = .ok l2) :
    l1 = l2 :=
  Except.ok.inj (h1.symm.trans h2)

/-- C6 witness: the determinism theorem instantiated at the concrete
dispatcher and input `42`. -/
theorem c6_dispatch_deterministic_witness :
    dAB.dispatch "42" = .ok [2, 1] ∧ ([2, 1] : List FuncId) = [2, 1] :=
  ⟨rfl, c6_dispatch_deterministic dAB "42" [2, 1] [2, 1] rfl rfl⟩

/-- C7: registering the pre-anchored form `^p$` of a core pattern text `p`
produces exactly the same dispatcher state as registering the bare `p`
(the two normalize to the same stored pattern), hence identical matching
behavior — identical dispatch results — for all inputs. -/
theorem c7_normalization_equivalence (d : RegexDispatcher) (p : String)
    (f : FuncId) (pr : Int) :
    d.add ("^" ++ p ++ "$") f pr = d.add p f pr ∧
    ∀ s, (d.add ("^" ++ p ++ "$") f pr).dispatch s = (d.add p f pr).dispatch s := by
  have hEq : d.add ("^" ++ p ++ "$") f pr = d.add p f pr := by
    unfold RegexDispatcher.add
    rw [normalize_anchor]
  exact ⟨hEq, fun s => by rw [hEq]⟩

/-- C8: registration is idempotent — performing `add` twice with the same
pattern, handler and priority leaves the same state as performing it
once. -/
theorem c8_registration_idempotent (d : RegexDispatcher) (r : String)
    (f : FuncId) (p : Int) :
    (d.add r f p).add r f p = d.add r f p := by
  unfold RegexDispatcher.add
  rw [dictInsert_idem, dictInsert_idem]

/-- C9: when two registrations collide on the same normalized pattern with
distinct handlers, only the later handler remains stored under that
pattern, and the earlier handler can appear among dispatch candidates only
through some other stored pattern that matches the input. -/
theorem c9_collision_overwrite (d : RegexDispatcher) (p1 p2 : String)
    (f1 f2 : FuncId) (pr1 pr2 : Int)
    (hreach : Reachable d) (hnorm : normalize p1 = normalize p2) (hne : f1 ≠ f2) :
    dictGet (normalize p1) ((d.add p1 f1 pr1).add p2 f2 pr2).funcs = some f2 ∧
    ∀ s l, ((d.add p1 f1 pr1).add p2 f2 pr2).dispatch s = .ok l → f1 ∈ l →
      ∃ r re, (r, f1) ∈ ((d.add p1 f1 pr1).add p2 f2 pr2).funcs ∧
        r ≠ normalize p1 ∧ parseRegex r = some re ∧ pyMatch re s = true := by
  have hkeys : ((((d.add p1 f1 pr1).add p2 f2 pr2).funcs).map Prod.fst).Nodup :=
    (reachable_inv _ (Reachable.add _ _ _ _ (Reachable.add _ _ _ _ hreach))).2
  have hget : dictGet (normalize p1) ((d.add p1 f1 pr1).add p2 f2 pr2).funcs = some f2 := by
    show dictGet (normalize p1) (dictInsert (normalize p2) f2 _) = some f2
    rw [← hnorm]
    exact dictGet_dictInsert_self _ _ _
  refine ⟨hget, ?_⟩
  intro s l hd2 hmem
  obtain ⟨fl, hmf, hperm, _⟩ := dispatch_ok _ s l hd2
  have hmem2 : f1 ∈ fl := hperm.subset hmem
  obtain ⟨r, re, hrf, hpr, hpm⟩ := (matchFilter_mem s _ fl hmf f1).mp hmem2
  refine ⟨r, re, hrf, ?_, hpr, hpm⟩
  intro hr
  rw [hr] at hrf
  have := dictGet_of_mem_nodup (normalize p1) f1 _ hkeys hrf
  rw [hget] at this
  exact hne (Option.some.inj this).symm

/-- C9 witness: the collision theorem instantiated at the fresh dispatcher
with `\d+` (handler 1) registered before `^\d+$` (handler 2): both
normalize to `^\d+$` and handler 2 wins. -/
theorem c9_collision_overwrite_witness :
    dictGet (normalize "\\d+")
      ((((RegexDispatcher.init "f").add "\\d+" 1 10).add "^\\d+$" 2 10).funcs) = some 2 :=
  (c9_collision_overwrite (RegexDispatcher.init "f") "\\d+" "^\\d+$" 1 2 10 10
    (Reachable.init "f") rfl (by decide)).1

/-- C10: on every dispatcher state reachable from a fresh instance by
registrations, every handler stored in `funcs` has an entry in
`priorities`, so the priority-descending sort of `dispatch` always has a
defined integer key for every candidate and `dispatch` can never fail
with the unorderable-keys `TypeError`. -/
theorem c10_priority_invariant (d : RegexDispatcher) (h : Reachable d) :
    (∀ r f, (r, f) ∈ d.funcs → (dictGet f d.priorities).isSome = true) ∧
    ∀ s, d.dispatch s ≠ .error .typeError := by
  have hinv := (reachable_inv d h).1
  exact ⟨hinv, fun s => dispatch_no_typeError d hinv s⟩

/-- C10 witness: the invariant instantiated on the reachable state with
`\d+` registered for handler 1 at priority 10. -/
theorem c10_priority_invariant_witness :
    (dictGet 1 (((RegexDispatcher.init "f").add "\\d+" 1 10).priorities)).isSome = true ∧
    ((RegexDispatcher.init "f").add "\\d+" 1 10).dispatch "5" ≠ .error .typeError :=
  ⟨(c10_priority_invariant ((RegexDispatcher.init "f").add "\\d+" 1 10)
      (Reachable.add _ _ _ _ (Reachable.init "f"))).1 "^\\d+$" 1 (by decide),
   (c10_priority_invariant ((RegexDispatcher.init "f").add "\\d+" 1 10)
      (Reachable.add _ _ _ _ (Reachable.init "f"))).2 "5"⟩

end into
